import Mathlib

/-!
# TinyLink: a shallow embedding of `src/server.js`

This file embeds the route handlers of the TinyLink URL-shortening server
(`src/server.js`) and proves the specification's claims about them.

Modelling decisions:

* The persistent `links` table is a `List LinkRow`; the inline SQL statements of
  `server.js` are given their standard relational meaning (`INSERT` with a unique
  constraint on `code`, `DELETE ... WHERE`, `UPDATE ... WHERE`, `SELECT ... ORDER BY
  created_at DESC`, `ILIKE` as case-insensitive `LIKE`).  The `db` module is a thin
  query runner; all query text lives in `server.js`.
* Timestamps (`NOW()`, `created_at`, `last_clicked`) are `Nat`, passed in explicitly.
* `Math.random()`-driven code generation is modelled by an explicit source of
  naturals `rand : Nat → Nat`; `Math.floor(Math.random() * chars.length)` always
  lies in `[0, 61]`, modelled by `rand i % 62`.
* JavaScript truthiness of an optional string body field (`!url`, `if (code)`,
  `if (!code)`) is `jsTruthy`: absent and empty strings are falsy.
* The WHATWG `new URL(str)` constructor used by `isValidUrl` is modelled by
  `parseURL`: a valid scheme is required; the special schemes
  (`http`, `https`, `ws`, `wss`, `ftp`) additionally require a nonempty host
  (`file` does not); every other scheme accepts an opaque scheme-specific part
  with no authority at all (e.g. `mailto:` URIs).  Percent-encoding
  normalisation, IPv6 bracket hosts and forbidden-host-character checks are not
  modelled; no claim here depends on them.
* HTTP responses are small inductive result types plus a `...Status` function
  mapping each outcome to the numeric status code the handler sends.
-/

/-! ## Characters, the code regex, JS truthiness -/

/-- ASCII letter, as used by `CODE_REGEX = /^[A-Za-z0-9]{6,8}$/`. -/
def isAsciiAlpha (c : Char) : Bool :=
  ('A' ≤ c && c ≤ 'Z') || ('a' ≤ c && c ≤ 'z')

/-- ASCII digit. -/
def isAsciiDigit (c : Char) : Bool :=
  '0' ≤ c && c ≤ '9'

/-- One character of the class `[A-Za-z0-9]`. -/
def isAlphanumChar (c : Char) : Bool :=
  isAsciiAlpha c || isAsciiDigit c

/-- `CODE_REGEX.test(s)` for `CODE_REGEX = /^[A-Za-z0-9]{6,8}$/` (server.js line 11). -/
def codeRegexTest (s : String) : Bool :=
  decide (6 ≤ s.toList.length) && decide (s.toList.length ≤ 8) &&
    s.toList.all isAlphanumChar

/-- JavaScript truthiness of an optional string field of `req.body` / `req.query`:
`undefined` and `''` are falsy, every other string is truthy. -/
def jsTruthy : Option String → Bool
  | none => false
  | some s => s ≠ ""

/-! ## Code generation (`generateCode`, server.js lines 34–41) -/

/-- The 62-character alphabet of `generateCode`. -/
def chars62 : List Char :=
  "ABCDEFGHIJKLMNOPQRSTUVWXYZabcdefghijklmnopqrstuvwxyz0123456789".toList

/-- `generateCode(length)`: `length` characters indexed by
`Math.floor(Math.random() * chars.length)`, modelled by `rand i % 62`
(always a valid index, as in the source). -/
def generateCode (rand : Nat → Nat) (length : Nat) : String :=
  String.mk ((List.range length).map fun i => chars62.getD (rand i % 62) 'A')

/-! ## The URL constructor model (`isValidUrl`, server.js lines 25–32) -/

/-- Split a character list at its first `':'`; `none` when there is no colon. -/
def splitAtColon : List Char → Option (List Char × List Char)
  | [] => none
  | c :: rest =>
    if c = ':' then some ([], rest)
    else
      match splitAtColon rest with
      | none => none
      | some (pre, post) => some (c :: pre, post)

/-- A character allowed after the first position of a URL scheme. -/
def isSchemeChar (c : Char) : Bool :=
  isAsciiAlpha c || isAsciiDigit c || c = '+' || c = '-' || c = '.'

/-- A syntactically valid URL scheme: a letter followed by scheme characters. -/
def validScheme : List Char → Bool
  | [] => false
  | c :: rest => isAsciiAlpha c && rest.all isSchemeChar

/-- The WHATWG special schemes that require an authority (minus `file`). -/
def isSpecialScheme (l : List Char) : Bool :=
  l = "http".toList || l = "https".toList || l = "ws".toList ||
    l = "wss".toList || l = "ftp".toList

/-- Drop the leading slashes (forward or back) before an authority. -/
def dropSlashes : List Char → List Char
  | '/' :: rest => dropSlashes rest
  | '\\' :: rest => dropSlashes rest
  | l => l

/-- The authority run: everything up to the first `/`, `\`, `?` or `#`. -/
def takeAuthority (l : List Char) : List Char :=
  l.takeWhile fun c => c ≠ '/' && c ≠ '\\' && c ≠ '?' && c ≠ '#'

/-- The part of an authority after the last `'@'` (the whole list when absent). -/
def afterLastAt (l : List Char) : List Char :=
  (l.reverse.takeWhile fun c => c ≠ '@').reverse

/-- The host inside an authority: strip userinfo, then stop at the port colon. -/
def hostOfAuthority (l : List Char) : List Char :=
  (afterLastAt l).takeWhile fun c => c ≠ ':'

/-- The result of a successful `new URL(str)` parse, reduced to the parts the
claims are about: the (lowercased) scheme, and the host when an authority
component is present (`none` for opaque-path URLs such as `mailto:` URIs). -/
structure URLModel where
  scheme : List Char
  host : Option (List Char)
deriving Repr, DecidableEq

/-- Model of the WHATWG `new URL(str)` constructor (no base URL): a valid scheme
is mandatory; a special scheme tolerates missing slashes and demands a nonempty
host (`file` excepted); any other scheme parses with an opaque scheme-specific
part unless it explicitly starts with `//`. -/
def parseURL (s : String) : Option URLModel :=
  match splitAtColon s.toList with
  | none => none
  | some (schemeRaw, rest) =>
    if validScheme schemeRaw then
      let scheme := schemeRaw.map Char.toLower
      if isSpecialScheme scheme then
        let host := hostOfAuthority (takeAuthority (dropSlashes rest))
        if host.isEmpty then none else some ⟨scheme, some host⟩
      else if scheme = "file".toList then
        some ⟨scheme, some (hostOfAuthority (takeAuthority (dropSlashes rest)))⟩
      else
        match rest with
        | '/' :: '/' :: r2 => some ⟨scheme, some (hostOfAuthority (takeAuthority r2))⟩
        | _ => some ⟨scheme, none⟩
    else none

/-- `isValidUrl(str)` (server.js lines 25–32): `true` exactly when `new URL(str)`
does not throw. -/
def isValidUrl (s : String) : Bool :=
  (parseURL s).isSome

/-- Modelled from the spec's words (section 4.1, `validateUrl`): "accepts only
strings parseable as an absolute URL (scheme + authority)" — i.e. the parse must
also carry an authority component.  Kept separate from `isValidUrl` (the code's
validator) so the two can be compared. -/
def specValidateUrl (s : String) : Bool :=
  match parseURL s with
  | none => false
  | some u => u.host.isSome

/-! ## The data model: rows and stores -/

/-- One row of the `links` table. -/
structure LinkRow where
  code : String
  target_url : String
  total_clicks : Nat
  last_clicked : Option Nat
  created_at : Nat
deriving Repr, DecidableEq

/-- The `links` table. -/
abbrev Store := List LinkRow

/-- The table's primary-key invariant: codes are pairwise distinct. -/
def Wf (s : Store) : Prop :=
  List.Pairwise (fun a b => a.code ≠ b.code) s

/-! ## POST /api/links (server.js lines 119–155) -/

/-- Outcome of `POST /api/links`. -/
inductive CreateResult where
  | created (row : LinkRow)
  | invalidUrl
  | invalidCode
  | duplicate
deriving Repr, DecidableEq

/-- HTTP status sent for each `CreateResult`. -/
def createStatus : CreateResult → Nat
  | .created _ => 201
  | .invalidUrl => 400
  | .invalidCode => 400
  | .duplicate => 409

/-- The code actually inserted: the body's truthy `code`, else the generated one
(`if (!code) code = generateCode(6)`). -/
def chosenCode (code : Option String) (gen : String) : String :=
  if jsTruthy code then code.getD "" else gen

/-- Handler of `POST /api/links`: reject a falsy or unparseable `url` (400),
then a truthy `code` failing `CODE_REGEX` (400); generate a code when `code` is
falsy; insert, with the unique constraint on `code` surfacing as 409.
`now` is the row's `created_at`; `gen` is the value `generateCode(6)` returns
when it is consulted. -/
def createLink (s : Store) (now : Nat) (url code : Option String) (gen : String) :
    CreateResult × Store :=
  if !(jsTruthy url && isValidUrl (url.getD "")) then
    (CreateResult.invalidUrl, s)
  else if jsTruthy code && !codeRegexTest (code.getD "") then
    (CreateResult.invalidCode, s)
  else if s.any fun r => r.code = chosenCode code gen then
    (CreateResult.duplicate, s)
  else
    (CreateResult.created ⟨chosenCode code gen, url.getD "", 0, none, now⟩,
      s ++ [⟨chosenCode code gen, url.getD "", 0, none, now⟩])

/-! ## GET /api/links/:code (server.js lines 173–191) -/

/-- Outcome of `GET /api/links/:code`. -/
inductive GetResult where
  | found (row : LinkRow)
  | notFound
deriving Repr, DecidableEq

/-- HTTP status sent for each `GetResult`. -/
def getStatus : GetResult → Nat
  | .found _ => 200
  | .notFound => 404

/-- Handler of `GET /api/links/:code`: `SELECT ... WHERE code = $1`, 404 when no
row matches. -/
def getLink (s : Store) (code : String) : GetResult :=
  match s.find? fun r => r.code = code with
  | none => GetResult.notFound
  | some row => GetResult.found row

/-! ## DELETE /api/links/:code (server.js lines 194–208) -/

/-- Outcome of `DELETE /api/links/:code`. -/
inductive DeleteResult where
  | noContent
  | notFound
deriving Repr, DecidableEq

/-- HTTP status sent for each `DeleteResult` (204 carries no body). -/
def deleteStatus : DeleteResult → Nat
  | .noContent => 204
  | .notFound => 404

/-- Handler of `DELETE /api/links/:code`: run `DELETE ... WHERE code = $1`, then
404 when `rowCount` (the number of rows removed) is zero, else 204 with no body. -/
def deleteLink (s : Store) (code : String) : DeleteResult × Store :=
  if (s.countP fun r => r.code = code) = 0 then
    (DeleteResult.notFound, s.filter fun r => !(r.code = code))
  else
    (DeleteResult.noContent, s.filter fun r => !(r.code = code))

/-! ## GET /:code (server.js lines 214–242) -/

/-- Outcome of `GET /:code`; `redirect` carries the status literal `302` passed
to `res.redirect(302, targetUrl)`. -/
inductive RedirectResult where
  | redirect (status : Nat) (target : String)
  | notFound
deriving Repr, DecidableEq

/-- HTTP status sent for each `RedirectResult`. -/
def redirectStatus : RedirectResult → Nat
  | .redirect st _ => st
  | .notFound => 404

/-- The effect of the click-stats `UPDATE` on one matching row:
`total_clicks = total_clicks + 1, last_clicked = NOW()`. -/
def bumpRow (now : Nat) (r : LinkRow) : LinkRow :=
  { r with total_clicks := r.total_clicks + 1, last_clicked := some now }

/-- Handler of `GET /:code`: `SELECT target_url ... WHERE code = $1`; on a miss,
404 and no write; on a hit, the atomic
`UPDATE links SET total_clicks = total_clicks + 1, last_clicked = NOW() WHERE code = $1`
followed by a 302 redirect to the selected `target_url`. -/
def redirectHandler (s : Store) (now : Nat) (code : String) :
    RedirectResult × Store :=
  match s.find? fun r => r.code = code with
  | none => (RedirectResult.notFound, s)
  | some row =>
    (RedirectResult.redirect 302 row.target_url,
      s.map fun r => if r.code = code then bumpRow now r else r)

/-! ## Listing: GET / (lines 57–89) and GET /api/links (lines 158–170) -/

/-- Lowercase a character list (Postgres `ILIKE` lower-cases both operands). -/
def toLowerL (l : List Char) : List Char :=
  l.map Char.toLower

/-- `needle` is a prefix of `haystack`. -/
def isPrefixOfL : List Char → List Char → Bool
  | [], _ => true
  | _ :: _, [] => false
  | a :: as, b :: bs => a = b && isPrefixOfL as bs

/-- `needle` occurs contiguously inside `haystack`. -/
def isInfixOfL (needle : List Char) : List Char → Bool
  | [] => needle.isEmpty
  | b :: bs => isPrefixOfL needle (b :: bs) || isInfixOfL needle bs

/-- Does `f` accept some suffix of the list (the list itself included)? -/
def anySuffix (f : List Char → Bool) : List Char → Bool
  | [] => f []
  | d :: t => f (d :: t) || anySuffix f t

/-- SQL `LIKE` pattern matching (anchored at both ends): `%` matches any run of
characters, `_` matches any single character, and the default escape `\` makes
the following pattern character literal.  A pattern ending in a dangling `\` is
an error in Postgres; it is unreachable from the source's `'%' + q + '%'`
patterns and modelled as matching nothing. -/
def likeMatch : List Char → List Char → Bool
  | [] => fun t => t.isEmpty
  | c :: p =>
    if c = '%' then fun t => anySuffix (likeMatch p) t
    else if c = '_' then fun t =>
      match t with
      | [] => false
      | _ :: t' => likeMatch p t'
    else if c = '\\' then
      match p with
      | [] => fun _ => false
      | e :: p' => fun t =>
        match t with
        | [] => false
        | d :: t' => (d = e) && likeMatch p' t'
    else fun t =>
      match t with
      | [] => false
      | d :: t' => (d = c) && likeMatch p t'

/-- A character the `LIKE` matcher treats literally: not `%`, `_` or `\`. -/
def isLikeLiteralChar (c : Char) : Bool :=
  c ≠ '%' && c ≠ '_' && c ≠ '\\'

/-- The dashboard's `$1`: the template literal `` `%${q}%` `` — `q` is
interpolated UNESCAPED, exactly as in the source, so metacharacters inside `q`
stay live in the pattern. -/
def likePattern (q : String) : List Char :=
  '%' :: q.toList ++ ['%']

/-- Postgres `ILIKE`: `LIKE` after lower-casing pattern and text. -/
def ilikeMatch (pat txt : List Char) : Bool :=
  likeMatch (toLowerL pat) (toLowerL txt)

/-- Modelled from the spec: the claim's reading of the filter — `hay` contains
`q` as a case-insensitive substring.  Kept separate from the `ILIKE` model so
the two can be compared: they agree exactly on filters free of `LIKE`
metacharacters. -/
def containsCI (hay q : String) : Bool :=
  isInfixOfL (toLowerL q.toList) (toLowerL hay.toList)

/-- The dashboard's `WHERE code ILIKE $1 OR target_url ILIKE $1` with
`$1 = '%' + q + '%'`. -/
def matchesFilter (q : String) (r : LinkRow) : Bool :=
  ilikeMatch (likePattern q) r.code.toList ||
    ilikeMatch (likePattern q) r.target_url.toList

/-- Newest first: the comparison behind `ORDER BY created_at DESC`. -/
def createdGE (a b : LinkRow) : Prop :=
  b.created_at ≤ a.created_at

instance : DecidableRel createdGE :=
  fun a b => Nat.decLe b.created_at a.created_at

instance : IsTotal LinkRow createdGE :=
  ⟨fun a b => le_total b.created_at a.created_at⟩

instance : IsTrans LinkRow createdGE :=
  ⟨fun _ _ _ h1 h2 => le_trans h2 h1⟩

/-- `ORDER BY created_at DESC` (ties in an order the SQL leaves unspecified). -/
def sortByCreatedDesc (l : List LinkRow) : List LinkRow :=
  List.insertionSort createdGE l

/-- Handler of the dashboard `GET /`: `q = req.query.q || ''`; when `q` is
truthy, filter with the double `ILIKE` before ordering; otherwise return every
row, newest first. -/
def dashboardList (s : Store) (q : String) : List LinkRow :=
  if q = "" then sortByCreatedDesc s
  else sortByCreatedDesc (s.filter (matchesFilter q))

/-- Handler of `GET /api/links`: the route reads no query parameter at all
(`q` is ignored) and returns every row ordered newest first. -/
def apiListLinks (s : Store) (_q : String) : List LinkRow :=
  sortByCreatedDesc s

/-! ## Operation sequences (for the invariants claim) -/

/-- One client-visible operation against the store. -/
inductive Op where
  | createOp (now : Nat) (url code : Option String) (gen : String)
  | getOp (code : String)
  | listOp (q : String)
  | apiListOp (q : String)
  | deleteOp (code : String)
  | redirectOp (now : Nat) (code : String)

/-- The store after one operation (reads leave it untouched). -/
def step (s : Store) : Op → Store
  | .createOp now url code gen => (createLink s now url code gen).2
  | .getOp _ => s
  | .listOp _ => s
  | .apiListOp _ => s
  | .deleteOp c => (deleteLink s c).2
  | .redirectOp now c => (redirectHandler s now c).2

/-- The store after a sequence of operations. -/
def run (s : Store) (ops : List Op) : Store :=
  ops.foldl step s

/-- Does this operation redirect through code `c`? -/
def isRedirectOf (c : String) : Op → Bool
  | .redirectOp _ c' => c' = c
  | _ => false

/-- Does this operation delete code `c`? -/
def isDeleteOf (c : String) : Op → Bool
  | .deleteOp c' => c' = c
  | _ => false

/-! ## Helper lemmas -/

/-- Code uniqueness pins a row down: two members of a well-formed store with the
same code are equal. -/
theorem mem_unique_of_wf {s : Store} {r x : LinkRow}
    (hwf : Wf s) (hr : r ∈ s) (hx : x ∈ s) (hcode : x.code = r.code) : x = r := by
  induction s with
  | nil => cases hr
  | cons a t ih =>
    rcases List.pairwise_cons.mp hwf with ⟨ha, ht⟩
    rcases List.mem_cons.mp hr with h1 | h1 <;> rcases List.mem_cons.mp hx with h2 | h2
    · rw [h1, h2]
    · subst h1
      exact absurd hcode (ha x h2).symm
    · subst h2
      exact absurd hcode (ha r h1)
    · exact ih ht h1 h2

/-- In a well-formed store, `find?` on the code of a member returns that member. -/
theorem find?_code_eq_of_wf {s : Store} {r : LinkRow} (hwf : Wf s) (hr : r ∈ s) :
    (s.find? fun x => x.code = r.code) = some r := by
  induction s with
  | nil => cases hr
  | cons a t ih =>
    rcases List.pairwise_cons.mp hwf with ⟨ha, ht⟩
    by_cases hac : a.code = r.code
    · rw [List.find?_cons_of_pos _ (by simpa using hac)]
      exact congrArg some (mem_unique_of_wf hwf hr (List.mem_cons_self a t) hac)
    · rw [List.find?_cons_of_neg _ (by simpa using hac)]
      rcases List.mem_cons.mp hr with h | h
      · exact absurd (by rw [h]) hac
      · exact ih ht h

/-- In a well-formed store, a member's code is counted exactly once. -/
theorem countP_code_eq_one_of_wf {s : Store} {r : LinkRow} (hwf : Wf s) (hr : r ∈ s) :
    (s.countP fun x => x.code = r.code) = 1 := by
  induction s with
  | nil => cases hr
  | cons a t ih =>
    rcases List.pairwise_cons.mp hwf with ⟨ha, ht⟩
    rcases List.mem_cons.mp hr with h | h
    · subst h
      rw [List.countP_cons_of_pos _ _ (by simp)]
      have hz : (t.countP fun x => x.code = r.code) = 0 :=
        List.countP_eq_zero.mpr fun x hx => by simpa using (ha x hx).symm
      rw [hz]
    · rw [List.countP_cons_of_neg _ _ (by simpa using ha r h)]
      exact ih ht h

/-- When no row carries the code, nothing is counted. -/
theorem countP_code_eq_zero {s : Store} {c : String} (h : ∀ r ∈ s, r.code ≠ c) :
    (s.countP fun x => x.code = c) = 0 :=
  List.countP_eq_zero.mpr fun x hx => by simpa using h x hx

/-- When no row carries the code, the `DELETE`'s filter is the identity. -/
theorem filter_code_eq_self {s : Store} {c : String} (h : ∀ r ∈ s, r.code ≠ c) :
    (s.filter fun r => !(r.code = c)) = s :=
  List.filter_eq_self.mpr fun x hx => by simpa using h x hx

/-- Removing the rows satisfying `p` shortens a list by exactly the count of `p`. -/
theorem length_filter_not_add_countP {α : Type} (p : α → Bool) :
    ∀ l : List α, (l.filter fun a => !p a).length + l.countP p = l.length := by
  intro l
  induction l with
  | nil => rfl
  | cons a t ih =>
    cases h : p a with
    | true =>
      rw [List.countP_cons_of_pos _ _ h, List.filter_cons_of_neg (by simp [h])]
      simp only [List.length_cons]
      omega
    | false =>
      rw [List.countP_cons_of_neg _ _ (by simp [h]), List.filter_cons_of_pos (by simp [h])]
      simp only [List.length_cons]
      omega

/-- Every character of the 62-letter alphabet is alphanumeric. -/
theorem chars62_all_alphanum : chars62.all isAlphanumChar = true := by decide

/-- Reduced-index lookups into `chars62` are alphanumeric characters. -/
theorem isAlphanumChar_getD_chars62 (k : Nat) :
    isAlphanumChar (chars62.getD (k % 62) 'A') = true := by
  have hk : k % 62 < chars62.length := by
    have : chars62.length = 62 := by decide
    rw [this]
    exact Nat.mod_lt _ (by decide)
  have hg : chars62.getD (k % 62) 'A' = chars62.get ⟨k % 62, hk⟩ := by
    simp [List.getD_eq_getElem?_getD, List.getElem?_eq_getElem hk]
  rw [hg]
  exact List.all_eq_true.mp chars62_all_alphanum _ (chars62.get_mem _ _)

/-- Reduced-index lookups into `chars62` stay inside the alphabet. -/
theorem mem_chars62_getD (k : Nat) : chars62.getD (k % 62) 'A' ∈ chars62 := by
  have hk : k % 62 < chars62.length := by
    have : chars62.length = 62 := by decide
    rw [this]
    exact Nat.mod_lt _ (by decide)
  have hg : chars62.getD (k % 62) 'A' = chars62.get ⟨k % 62, hk⟩ := by
    simp [List.getD_eq_getElem?_getD, List.getElem?_eq_getElem hk]
  rw [hg]
  exact chars62.get_mem _ _

/-- The characters of a generated code, as produced. -/
theorem generateCode_toList (rand : Nat → Nat) (n : Nat) :
    (generateCode rand n).toList =
      (List.range n).map fun i => chars62.getD (rand i % 62) 'A' := rfl

/-- A generated code has exactly the requested length. -/
theorem generateCode_length (rand : Nat → Nat) (n : Nat) :
    (generateCode rand n).toList.length = n := by
  rw [generateCode_toList]
  simp

/-- Every character of a generated code is alphanumeric. -/
theorem generateCode_alphanum (rand : Nat → Nat) (n : Nat) :
    (generateCode rand n).toList.all isAlphanumChar = true := by
  rw [generateCode_toList]
  refine List.all_eq_true.mpr fun c hc => ?_
  rcases List.mem_map.mp hc with ⟨i, _, rfl⟩
  simpa using isAlphanumChar_getD_chars62 (rand i)

/-- Every character of a generated code lies in the 62-letter alphabet. -/
theorem generateCode_mem_chars62 (rand : Nat → Nat) (n : Nat) :
    (generateCode rand n).toList.all (fun c => c ∈ chars62) = true := by
  rw [generateCode_toList]
  refine List.all_eq_true.mpr fun c hc => ?_
  rcases List.mem_map.mp hc with ⟨i, _, rfl⟩
  simpa using mem_chars62_getD (rand i)

/-- A 6-character generated code passes `CODE_REGEX`. -/
theorem codeRegexTest_generateCode (rand : Nat → Nat) :
    codeRegexTest (generateCode rand 6) = true := by
  unfold codeRegexTest
  rw [generateCode_length, generateCode_alphanum]
  decide

/-- A string passing `CODE_REGEX` is nonempty (hence truthy). -/
theorem ne_empty_of_codeRegexTest {c : String} (h : codeRegexTest c = true) : c ≠ "" :=
  fun he => absurd (he ▸ h) (by decide)

/-- Unfolding `likeMatch` at the empty pattern. -/
theorem likeMatch_nil (t : List Char) : likeMatch [] t = t.isEmpty := by
  rw [likeMatch.eq_def]

/-- Unfolding `likeMatch` at a leading `%`: some suffix must match the rest. -/
theorem likeMatch_pct (p t : List Char) :
    likeMatch ('%' :: p) t = anySuffix (likeMatch p) t := by
  rw [likeMatch.eq_def]
  rfl

/-- A pattern headed by a literal character rejects the empty text. -/
theorem likeMatch_lit_nil (c : Char) (p : List Char) (hc1 : ¬(c = '%')) (hc2 : ¬(c = '_'))
    (hc3 : ¬(c = '\\')) : likeMatch (c :: p) [] = false := by
  rw [likeMatch.eq_def]
  simp only [if_neg hc1, if_neg hc2, if_neg hc3]

/-- A pattern headed by a literal character consumes one matching text character. -/
theorem likeMatch_lit_cons (c : Char) (p : List Char) (hc1 : ¬(c = '%')) (hc2 : ¬(c = '_'))
    (hc3 : ¬(c = '\\')) (d : Char) (t : List Char) :
    likeMatch (c :: p) (d :: t) = ((d = c) && likeMatch p t) := by
  rw [likeMatch.eq_def]
  simp only [if_neg hc1, if_neg hc2, if_neg hc3]

/-- A lone `%` pattern matches every text. -/
theorem anySuffix_likeMatch_nil (t : List Char) : anySuffix (likeMatch []) t = true := by
  induction t with
  | nil => rfl
  | cons d t ih => simp [anySuffix, ih, likeMatch_nil]

/-- Prefix testing against the empty haystack. -/
theorem isPrefixOfL_nil_right (needle : List Char) :
    isPrefixOfL needle [] = needle.isEmpty := by
  cases needle <;> rfl

/-- A metacharacter-free needle followed by `%` matches exactly the texts it
prefixes. -/
theorem likeMatch_append_pct (needle : List Char) (h : needle.all isLikeLiteralChar = true) :
    ∀ t : List Char, likeMatch (needle ++ ['%']) t = isPrefixOfL needle t := by
  induction needle with
  | nil =>
    intro t
    show likeMatch ('%' :: []) t = true
    rw [likeMatch_pct]
    exact anySuffix_likeMatch_nil t
  | cons c ns ih =>
    intro t
    have hc := List.all_eq_true.mp h c (List.mem_cons_self _ _)
    have hns : ns.all isLikeLiteralChar = true :=
      List.all_eq_true.mpr fun x hx => List.all_eq_true.mp h x (List.mem_cons_of_mem _ hx)
    simp only [isLikeLiteralChar, Bool.and_eq_true, decide_eq_true_eq] at hc
    obtain ⟨⟨hc1, hc2⟩, hc3⟩ := hc
    show likeMatch (c :: (ns ++ ['%'])) t = isPrefixOfL (c :: ns) t
    cases t with
    | nil => rw [likeMatch_lit_nil c _ hc1 hc2 hc3]; rfl
    | cons d t' =>
      rw [likeMatch_lit_cons c _ hc1 hc2 hc3, ih hns t']
      show ((d = c) && isPrefixOfL ns t') = ((c = d) && isPrefixOfL ns t')
      by_cases hdc : d = c
      · rw [hdc]
      · rw [decide_eq_false hdc, decide_eq_false fun hh => hdc hh.symm]

/-- The pattern `'%' + needle + '%'`, for a metacharacter-free needle, matches
exactly the texts containing the needle: `LIKE` collapses to substring
containment there. -/
theorem likeMatch_pct_infix (needle : List Char) (h : needle.all isLikeLiteralChar = true) :
    ∀ t : List Char, likeMatch ('%' :: (needle ++ ['%'])) t = isInfixOfL needle t := by
  intro t
  induction t with
  | nil =>
    rw [likeMatch_pct]
    show likeMatch (needle ++ ['%']) [] = isInfixOfL needle []
    rw [likeMatch_append_pct needle h [], isPrefixOfL_nil_right]
    rfl
  | cons d t' ih =>
    rw [likeMatch_pct] at ih ⊢
    show (likeMatch (needle ++ ['%']) (d :: t') || anySuffix (likeMatch (needle ++ ['%'])) t') =
      isInfixOfL needle (d :: t')
    rw [likeMatch_append_pct needle h (d :: t'), ih]
    rfl

/-- Lower-casing keeps a literal (non-metacharacter) character literal: the
metacharacters are not uppercase letters, and uppercase letters lower to
lowercase letters. -/
theorem isLikeLiteralChar_toLower (c : Char) (h : isLikeLiteralChar c = true) :
    isLikeLiteralChar (Char.toLower c) = true := by
  by_cases hu : 65 ≤ c.toNat ∧ c.toNat ≤ 90
  · obtain ⟨h1, h2⟩ := hu
    have hg : Char.ofNat c.toNat = c := Char.ofNat_toNat c
    rw [← hg]
    generalize c.toNat = n at h1 h2
    interval_cases n <;> decide
  · have hl : Char.toLower c = c := by
      unfold Char.toLower
      rw [if_neg hu]
    rw [hl]
    exact h

/-- Lower-casing the dashboard pattern lowers only the interpolated filter. -/
theorem toLowerL_likePattern (q : String) :
    toLowerL (likePattern q) = '%' :: (toLowerL q.toList ++ ['%']) := by
  have hp : Char.toLower '%' = '%' := by decide
  simp [likePattern, toLowerL, hp]

/-- On filters free of `LIKE` metacharacters, the dashboard's double-`ILIKE`
test is exactly case-insensitive substring containment in `code` or
`target_url`. -/
theorem matchesFilter_eq_containsCI (q : String)
    (h : q.toList.all isLikeLiteralChar = true) (r : LinkRow) :
    matchesFilter q r = (containsCI r.code q || containsCI r.target_url q) := by
  have hlit : (toLowerL q.toList).all isLikeLiteralChar = true := by
    rw [List.all_eq_true] at h ⊢
    intro x hx
    simp only [toLowerL] at hx
    rcases List.mem_map.mp hx with ⟨y, hy, rfl⟩
    exact isLikeLiteralChar_toLower y (h y hy)
  unfold matchesFilter containsCI ilikeMatch
  rw [toLowerL_likePattern, likeMatch_pct_infix _ hlit, likeMatch_pct_infix _ hlit]

/-- The store after `POST /api/links` is either untouched or extended by one
fresh-coded row with zeroed counters. -/
theorem createLink_snd (s : Store) (now : Nat) (url code : Option String) (gen : String) :
    (createLink s now url code gen).2 = s ∨
    ∃ c : String, (∀ x ∈ s, x.code ≠ c) ∧
      (createLink s now url code gen).2 = s ++ [⟨c, url.getD "", 0, none, now⟩] := by
  unfold createLink
  split
  · exact Or.inl rfl
  split
  · exact Or.inl rfl
  split
  · exact Or.inl rfl
  · rename_i hany
    refine Or.inr ⟨chosenCode code gen, fun x hx => ?_, rfl⟩
    have := List.any_eq_false.mp (Bool.eq_false_iff.mpr hany) x hx
    simpa using this

/-- `POST /api/links` preserves code uniqueness. -/
theorem Wf_createLink (s : Store) (now : Nat) (url code : Option String) (gen : String)
    (hwf : Wf s) : Wf (createLink s now url code gen).2 := by
  rcases createLink_snd s now url code gen with h | ⟨c, hfresh, h⟩
  · rw [h]; exact hwf
  · rw [h]
    refine List.pairwise_append.mpr ⟨hwf, List.pairwise_singleton _ _, ?_⟩
    intro a ha b hb
    rw [List.mem_singleton.mp hb]
    exact hfresh a ha

/-- `DELETE /api/links/:code` preserves code uniqueness. -/
theorem Wf_deleteLink (s : Store) (c : String) (hwf : Wf s) : Wf (deleteLink s c).2 := by
  unfold deleteLink
  split <;> exact hwf.sublist (List.filter_sublist _)

/-- The click-stats `UPDATE` never rewrites a row's code. -/
theorem bump_code_eq (now : Nat) (c : String) (x : LinkRow) :
    (if x.code = c then bumpRow now x else x).code = x.code := by
  split <;> rfl

/-- `GET /:code` preserves code uniqueness. -/
theorem Wf_redirect (s : Store) (now : Nat) (c : String) (hwf : Wf s) :
    Wf (redirectHandler s now c).2 := by
  unfold redirectHandler
  cases hf : s.find? fun r => r.code = c with
  | none => exact hwf
  | some row =>
    refine hwf.map _ fun a b hab => ?_
    rw [bump_code_eq now c a, bump_code_eq now c b]
    exact hab

/-- Every operation preserves code uniqueness. -/
theorem Wf_step (s : Store) (op : Op) (hwf : Wf s) : Wf (step s op) := by
  cases op with
  | createOp now url code gen => exact Wf_createLink s now url code gen hwf
  | getOp c => exact hwf
  | listOp q => exact hwf
  | apiListOp q => exact hwf
  | deleteOp c => exact Wf_deleteLink s c hwf
  | redirectOp now c => exact Wf_redirect s now c hwf

/-- One operation that does not delete a row's code keeps a successor of that
row in the store: same code, same target, same creation time, clicks not
decreased, and literally the same row unless the operation redirected it. -/
theorem step_survivor (s : Store) (op : Op) (r : LinkRow) (hr : r ∈ s)
    (hnd : isDeleteOf r.code op = false) :
    ∃ r₁ ∈ step s op, r₁.code = r.code ∧ r₁.target_url = r.target_url ∧
      r₁.created_at = r.created_at ∧ r.total_clicks ≤ r₁.total_clicks ∧
      (isRedirectOf r.code op = false → r₁ = r) := by
  cases op with
  | getOp c => exact ⟨r, hr, rfl, rfl, rfl, le_refl _, fun _ => rfl⟩
  | listOp q => exact ⟨r, hr, rfl, rfl, rfl, le_refl _, fun _ => rfl⟩
  | apiListOp q => exact ⟨r, hr, rfl, rfl, rfl, le_refl _, fun _ => rfl⟩
  | createOp now url code gen =>
    refine ⟨r, ?_, rfl, rfl, rfl, le_refl _, fun _ => rfl⟩
    show r ∈ (createLink s now url code gen).2
    rcases createLink_snd s now url code gen with h | ⟨c, _, h⟩
    · rw [h]; exact hr
    · rw [h]; exact List.mem_append_left _ hr
  | deleteOp c =>
    have hcc : ¬(c = r.code) := by simpa [isDeleteOf] using hnd
    refine ⟨r, ?_, rfl, rfl, rfl, le_refl _, fun _ => rfl⟩
    show r ∈ (deleteLink s c).2
    unfold deleteLink
    split <;> exact List.mem_filter.mpr ⟨hr, by simp [Ne.symm hcc]⟩
  | redirectOp now c =>
    show ∃ r₁ ∈ (redirectHandler s now c).2, _
    unfold redirectHandler
    cases hf : s.find? fun x => x.code = c with
    | none => exact ⟨r, hr, rfl, rfl, rfl, le_refl _, fun _ => rfl⟩
    | some row =>
      by_cases hc : r.code = c
      · refine ⟨bumpRow now r, ?_, rfl, rfl, rfl, Nat.le_succ _, fun hfalse => ?_⟩
        · refine List.mem_map.mpr ⟨r, hr, ?_⟩
          rw [if_pos hc]
        · have : isRedirectOf r.code (Op.redirectOp now c) = true := by
            simp [isRedirectOf, hc]
          rw [this] at hfalse
          cases hfalse
      · refine ⟨r, ?_, rfl, rfl, rfl, le_refl _, fun _ => rfl⟩
        refine List.mem_map.mpr ⟨r, hr, ?_⟩
        rw [if_neg hc]

/-! ## The claims -/

/-- C1: on a store containing a row with code `c`, `GET /:code` on `c` answers
an HTTP 302 redirect to that row's stored `target_url`, replaces exactly that
row by its click-bumped version (`total_clicks + 1`, `last_clicked = now`), and
keeps every other row. -/
theorem C1_redirect_known_increments (s : Store) (now : Nat) (r : LinkRow)
    (hwf : Wf s) (hr : r ∈ s) :
    (redirectHandler s now r.code).1 = RedirectResult.redirect 302 r.target_url ∧
    redirectStatus (redirectHandler s now r.code).1 = 302 ∧
    bumpRow now r ∈ (redirectHandler s now r.code).2 ∧
    (∀ y ∈ (redirectHandler s now r.code).2, y.code = r.code → y = bumpRow now r) ∧
    (∀ x ∈ s, x.code ≠ r.code → x ∈ (redirectHandler s now r.code).2) := by
  have hf := find?_code_eq_of_wf hwf hr
  have hred : redirectHandler s now r.code =
      (RedirectResult.redirect 302 r.target_url,
        s.map fun x => if x.code = r.code then bumpRow now x else x) := by
    unfold redirectHandler
    rw [hf]
  rw [hred]
  refine ⟨rfl, rfl, ?_, ?_, ?_⟩
  · exact List.mem_map.mpr ⟨r, hr, by rw [if_pos rfl]⟩
  · intro y hy hyc
    rcases List.mem_map.mp hy with ⟨x, hx, rfl⟩
    by_cases hxc : x.code = r.code
    · have hxr : x = r := mem_unique_of_wf hwf hr hx hxc
      subst hxr
      rw [if_pos hxc]
    · rw [if_neg hxc] at hyc ⊢
      exact absurd hyc hxc
  · intro x hx hxc
    exact List.mem_map.mpr ⟨x, hx, by rw [if_neg hxc]⟩

/-- Witness for C1: one stored row, clicked at time 7. -/
theorem C1_redirect_known_increments_witness :
    (redirectHandler [⟨"abc123", "http://a.com", 5, none, 10⟩] 7 "abc123").1 =
      RedirectResult.redirect 302 "http://a.com" ∧
    redirectStatus
      (redirectHandler [⟨"abc123", "http://a.com", 5, none, 10⟩] 7 "abc123").1 = 302 ∧
    bumpRow 7 ⟨"abc123", "http://a.com", 5, none, 10⟩ ∈
      (redirectHandler [⟨"abc123", "http://a.com", 5, none, 10⟩] 7 "abc123").2 ∧
    (∀ y ∈ (redirectHandler [⟨"abc123", "http://a.com", 5, none, 10⟩] 7 "abc123").2,
      y.code = "abc123" → y = bumpRow 7 ⟨"abc123", "http://a.com", 5, none, 10⟩) ∧
    (∀ x ∈ [(⟨"abc123", "http://a.com", 5, none, 10⟩ : LinkRow)], x.code ≠ "abc123" →
      x ∈ (redirectHandler [⟨"abc123", "http://a.com", 5, none, 10⟩] 7 "abc123").2) :=
  C1_redirect_known_increments [⟨"abc123", "http://a.com", 5, none, 10⟩] 7
    ⟨"abc123", "http://a.com", 5, none, 10⟩ (by unfold Wf; decide) (by decide)

/-- C2 (amended): a NON-EMPTY custom code failing `CODE_REGEX` makes
`POST /api/links` answer 400 with the store untouched; an empty-string code is
falsy in JavaScript and is treated as omitted instead. -/
theorem C2_invalid_code_rejected (s : Store) (now : Nat) (url : Option String)
    (c gen : String) (hne : c ≠ "") (hbad : codeRegexTest c = false) :
    createStatus (createLink s now url (some c) gen).1 = 400 ∧
    (createLink s now url (some c) gen).2 = s := by
  unfold createLink
  cases hu : jsTruthy url && isValidUrl (url.getD "") with
  | false => simp [hu, createStatus]
  | true => simp [hu, jsTruthy, hne, hbad, createStatus]

/-- Counterexample to C2 as stated: the empty string does not match
`^[A-Za-z0-9]{6,8}$`, yet `createLink` with custom code `""` succeeds with 201
and a generated code, because `if (code && ...)` skips falsy codes. -/
theorem C2_counterexample :
    codeRegexTest "" = false ∧
    createStatus (createLink [] 0 (some "http://example.com") (some "") "abc123").1 = 201 ∧
    (createLink [] 0 (some "http://example.com") (some "") "abc123").2 =
      [⟨"abc123", "http://example.com", 0, none, 0⟩] := by
  decide

/-- Witness for C2 at the rejected custom code `"ab!"`. -/
theorem C2_invalid_code_rejected_witness :
    createStatus (createLink [] 0 (some "http://example.com") (some "ab!") "abc123").1 = 400 ∧
    (createLink [] 0 (some "http://example.com") (some "ab!") "abc123").2 = [] :=
  C2_invalid_code_rejected [] 0 (some "http://example.com") "ab!" "abc123"
    (by decide) (by decide)

/-- C3: creating a second link whose explicit code is already stored answers
409 `DuplicateCode`, leaves the store (hence the first row) unchanged, and the
store keeps exactly one row with that code. -/
theorem C3_duplicate_conflict (s : Store) (now : Nat) (url c gen : String) (r : LinkRow)
    (hwf : Wf s) (hr : r ∈ s) (hc : r.code = c)
    (hurl : url ≠ "") (hvalid : isValidUrl url = true)
    (hcode : codeRegexTest c = true) :
    (createLink s now (some url) (some c) gen).1 = CreateResult.duplicate ∧
    createStatus (createLink s now (some url) (some c) gen).1 = 409 ∧
    (createLink s now (some url) (some c) gen).2 = s ∧
    (s.countP fun x => x.code = c) = 1 := by
  have hne : c ≠ "" := ne_empty_of_codeRegexTest hcode
  have hchosen : chosenCode (some c) gen = c := by simp [chosenCode, jsTruthy, hne]
  have hany : (s.any fun x => x.code = chosenCode (some c) gen) = true := by
    rw [hchosen]
    exact List.any_eq_true.mpr ⟨r, hr, by simp [hc]⟩
  have h1 : createLink s now (some url) (some c) gen = (CreateResult.duplicate, s) := by
    unfold createLink
    simp [jsTruthy, hurl, hvalid, hne, hcode, hany]
  refine ⟨by rw [h1], by rw [h1]; rfl, by rw [h1], ?_⟩
  rw [← hc]
  exact countP_code_eq_one_of_wf hwf hr

/-- Witness for C3: re-creating code `"abc123"` over a one-row store. -/
theorem C3_duplicate_conflict_witness :
    (createLink [⟨"abc123", "http://a.com", 3, some 5, 0⟩] 9
        (some "http://b.com") (some "abc123") "zzzzzz").1 = CreateResult.duplicate ∧
    createStatus (createLink [⟨"abc123", "http://a.com", 3, some 5, 0⟩] 9
        (some "http://b.com") (some "abc123") "zzzzzz").1 = 409 ∧
    (createLink [⟨"abc123", "http://a.com", 3, some 5, 0⟩] 9
        (some "http://b.com") (some "abc123") "zzzzzz").2 =
      [⟨"abc123", "http://a.com", 3, some 5, 0⟩] ∧
    (List.countP (fun x => x.code = "abc123")
      [(⟨"abc123", "http://a.com", 3, some 5, 0⟩ : LinkRow)]) = 1 :=
  C3_duplicate_conflict [⟨"abc123", "http://a.com", 3, some 5, 0⟩] 9
    "http://b.com" "abc123" "zzzzzz" ⟨"abc123", "http://a.com", 3, some 5, 0⟩
    (by unfold Wf; decide) (by decide) rfl (by decide) (by decide) (by decide)

/-- C4: `GET /:code` on a code with no stored row answers 404 and returns the
store exactly as it was: no counter bump, no timestamp write. -/
theorem C4_redirect_unknown (s : Store) (now : Nat) (c : String)
    (h : ∀ r ∈ s, r.code ≠ c) :
    redirectHandler s now c = (RedirectResult.notFound, s) ∧
    redirectStatus (redirectHandler s now c).1 = 404 := by
  have hf : (s.find? fun r => r.code = c) = none :=
    List.find?_eq_none.mpr fun x hx => by simpa using h x hx
  have hred : redirectHandler s now c = (RedirectResult.notFound, s) := by
    unfold redirectHandler
    rw [hf]
  exact ⟨hred, by rw [hred]; rfl⟩

/-- Witness for C4 at an absent code over a one-row store. -/
theorem C4_redirect_unknown_witness :
    redirectHandler [⟨"abc123", "http://a.com", 5, none, 10⟩] 7 "zzzzzz" =
      (RedirectResult.notFound, [⟨"abc123", "http://a.com", 5, none, 10⟩]) ∧
    redirectStatus
      (redirectHandler [⟨"abc123", "http://a.com", 5, none, 10⟩] 7 "zzzzzz").1 = 404 :=
  C4_redirect_unknown [⟨"abc123", "http://a.com", 5, none, 10⟩] 7 "zzzzzz" (by decide)

/-- C5 (amended): the filter lives on the dashboard route `GET /` only, and is
Postgres `ILIKE` against the unescaped pattern `'%' + q + '%'` — `%`, `_` and
`\` inside `q` stay live as wildcards/escape; for a filter free of those
metacharacters the test is exactly "contains `q` as a case-insensitive
substring in `code` or `target_url`".  With a non-empty `q` the dashboard
returns exactly the `ILIKE`-matching rows ordered by `created_at` descending,
and with `q` empty it returns all rows in that order; `GET /api/links` reads no
query parameter and always returns all rows, newest first. -/
theorem C5_listing (s : Store) (q : String) (hq : q ≠ "") :
    (dashboardList s q).Perm (s.filter (matchesFilter q)) ∧
    List.Sorted createdGE (dashboardList s q) ∧
    (dashboardList s "").Perm s ∧
    List.Sorted createdGE (dashboardList s "") ∧
    (apiListLinks s q).Perm s ∧
    List.Sorted createdGE (apiListLinks s q) ∧
    (q.toList.all isLikeLiteralChar = true →
      ∀ r : LinkRow, matchesFilter q r = (containsCI r.code q || containsCI r.target_url q)) := by
  unfold dashboardList apiListLinks sortByCreatedDesc
  rw [if_neg hq, if_pos rfl]
  exact ⟨List.perm_insertionSort _ _, List.sorted_insertionSort _ _,
    List.perm_insertionSort _ _, List.sorted_insertionSort _ _,
    List.perm_insertionSort _ _, List.sorted_insertionSort _ _,
    fun hl r => matchesFilter_eq_containsCI q hl r⟩

/-- Counterexample to C5 as stated, on both counts: `GET /api/links` queried
with filter `"zzz"` still returns the stored row even though neither its code
nor its target contains `"zzz"` (the route ignores the filter entirely); and
the filter that does exist is not substring containment: the filter `"%"`
matches a row that contains no `"%"` at all, because the unescaped interpolation
leaves `%` a live wildcard. -/
theorem C5_counterexample :
    matchesFilter "zzz" ⟨"abc123", "http://example.com", 0, none, 0⟩ = false ∧
    apiListLinks [⟨"abc123", "http://example.com", 0, none, 0⟩] "zzz" =
      [⟨"abc123", "http://example.com", 0, none, 0⟩] ∧
    matchesFilter "%" ⟨"abc123", "http://example.com", 0, none, 0⟩ = true ∧
    containsCI "abc123" "%" = false ∧
    containsCI "http://example.com" "%" = false := by
  decide

/-- Witness for C5 over a two-row store with filter `"A.CO"`. -/
theorem C5_listing_witness :
    (dashboardList [⟨"a23456", "http://a.com", 0, none, 1⟩,
        ⟨"b23456", "http://b.com", 0, none, 5⟩] "A.CO").Perm
      (List.filter (matchesFilter "A.CO")
        [⟨"a23456", "http://a.com", 0, none, 1⟩, ⟨"b23456", "http://b.com", 0, none, 5⟩]) ∧
    List.Sorted createdGE (dashboardList [⟨"a23456", "http://a.com", 0, none, 1⟩,
        ⟨"b23456", "http://b.com", 0, none, 5⟩] "A.CO") ∧
    (dashboardList [⟨"a23456", "http://a.com", 0, none, 1⟩,
        ⟨"b23456", "http://b.com", 0, none, 5⟩] "").Perm
      [⟨"a23456", "http://a.com", 0, none, 1⟩, ⟨"b23456", "http://b.com", 0, none, 5⟩] ∧
    List.Sorted createdGE (dashboardList [⟨"a23456", "http://a.com", 0, none, 1⟩,
        ⟨"b23456", "http://b.com", 0, none, 5⟩] "") ∧
    (apiListLinks [⟨"a23456", "http://a.com", 0, none, 1⟩,
        ⟨"b23456", "http://b.com", 0, none, 5⟩] "A.CO").Perm
      [⟨"a23456", "http://a.com", 0, none, 1⟩, ⟨"b23456", "http://b.com", 0, none, 5⟩] ∧
    List.Sorted createdGE (apiListLinks [⟨"a23456", "http://a.com", 0, none, 1⟩,
        ⟨"b23456", "http://b.com", 0, none, 5⟩] "A.CO") ∧
    ("A.CO".toList.all isLikeLiteralChar = true →
      ∀ r : LinkRow, matchesFilter "A.CO" r =
        (containsCI r.code "A.CO" || containsCI r.target_url "A.CO")) :=
  C5_listing [⟨"a23456", "http://a.com", 0, none, 1⟩,
    ⟨"b23456", "http://b.com", 0, none, 5⟩] "A.CO" (by decide)

/-- C6: with a valid URL and the code omitted, and the freshly generated code
not colliding with a stored one, `POST /api/links` answers 201 with a record
whose code is the 6-character generated string over the 62-letter alphanumeric
alphabet (so it passes `CODE_REGEX`), whose `total_clicks` is 0 and whose
`last_clicked` is null. -/
theorem C6_create_generated (s : Store) (now : Nat) (url : String) (rand : Nat → Nat)
    (hurl : url ≠ "") (hvalid : isValidUrl url = true)
    (hfresh : ∀ r ∈ s, r.code ≠ generateCode rand 6) :
    createLink s now (some url) none (generateCode rand 6) =
      (CreateResult.created ⟨generateCode rand 6, url, 0, none, now⟩,
        s ++ [⟨generateCode rand 6, url, 0, none, now⟩]) ∧
    createStatus (createLink s now (some url) none (generateCode rand 6)).1 = 201 ∧
    (generateCode rand 6).toList.length = 6 ∧
    (generateCode rand 6).toList.all (fun ch => ch ∈ chars62) = true ∧
    codeRegexTest (generateCode rand 6) = true := by
  have hchosen : chosenCode none (generateCode rand 6) = generateCode rand 6 := rfl
  have hany : (s.any fun x => x.code = chosenCode none (generateCode rand 6)) = false := by
    rw [hchosen, List.any_eq_false]
    intro x hx
    simpa using hfresh x hx
  have h1 : createLink s now (some url) none (generateCode rand 6) =
      (CreateResult.created ⟨generateCode rand 6, url, 0, none, now⟩,
        s ++ [⟨generateCode rand 6, url, 0, none, now⟩]) := by
    unfold createLink
    simp [jsTruthy, hurl, hvalid, hany, hchosen]
    exact fun x hx => hfresh x hx
  exact ⟨h1, by rw [h1]; rfl, generateCode_length rand 6, generateCode_mem_chars62 rand 6,
    codeRegexTest_generateCode rand⟩

/-- Witness for C6: empty store, constant random source (code `"AAAAAA"`). -/
theorem C6_create_generated_witness :
    createLink [] 3 (some "http://example.com") none (generateCode (fun _ => 0) 6) =
      (CreateResult.created ⟨generateCode (fun _ => 0) 6, "http://example.com", 0, none, 3⟩,
        [] ++ [⟨generateCode (fun _ => 0) 6, "http://example.com", 0, none, 3⟩]) ∧
    createStatus (createLink [] 3 (some "http://example.com") none
      (generateCode (fun _ => 0) 6)).1 = 201 ∧
    (generateCode (fun _ => 0) 6).toList.length = 6 ∧
    (generateCode (fun _ => 0) 6).toList.all (fun ch => ch ∈ chars62) = true ∧
    codeRegexTest (generateCode (fun _ => 0) 6) = true :=
  C6_create_generated [] 3 "http://example.com" (fun _ => 0)
    (by decide) (by decide) (by decide)

/-- C7: deleting an absent code answers 404 with the store unchanged; deleting a
stored code answers 204 (no body), removes exactly that row — every survivor was
already stored and keeps its code, every other row survives — and a subsequent
fetch of the code answers `NotFound`. -/
theorem C7_delete (s : Store) (c : String) (hwf : Wf s) :
    ((∀ r ∈ s, r.code ≠ c) →
      deleteLink s c = (DeleteResult.notFound, s) ∧
      deleteStatus (deleteLink s c).1 = 404) ∧
    ∀ r ∈ s, r.code = c →
      (deleteLink s c).1 = DeleteResult.noContent ∧
      deleteStatus (deleteLink s c).1 = 204 ∧
      (deleteLink s c).2.length + 1 = s.length ∧
      (∀ x ∈ (deleteLink s c).2, x ∈ s ∧ x.code ≠ c) ∧
      (∀ x ∈ s, x.code ≠ c → x ∈ (deleteLink s c).2) ∧
      getLink (deleteLink s c).2 c = GetResult.notFound := by
  constructor
  · intro h
    have hz : (s.countP fun x => x.code = c) = 0 := countP_code_eq_zero h
    have hfs : (s.filter fun r => !(r.code = c)) = s := filter_code_eq_self h
    have hd : deleteLink s c = (DeleteResult.notFound, s) := by
      unfold deleteLink
      rw [if_pos hz, hfs]
    exact ⟨hd, by rw [hd]; rfl⟩
  · intro r hr hc
    have h1 : (s.countP fun x => x.code = c) = 1 := by
      rw [← hc]
      exact countP_code_eq_one_of_wf hwf hr
    have hd : deleteLink s c = (DeleteResult.noContent, s.filter fun x => !(x.code = c)) := by
      unfold deleteLink
      rw [if_neg (by rw [h1]; exact one_ne_zero)]
    have hlen : (s.filter fun x => !(x.code = c)).length + 1 = s.length := by
      have hcount := length_filter_not_add_countP (fun x : LinkRow => x.code = c) s
      rw [h1] at hcount
      exact hcount
    refine ⟨by rw [hd], by rw [hd]; rfl, by rw [hd]; exact hlen, ?_, ?_, ?_⟩
    · intro x hx
      rw [hd] at hx
      have hm := List.mem_filter.mp hx
      exact ⟨hm.1, by simpa using hm.2⟩
    · intro x hx hxc
      rw [hd]
      exact List.mem_filter.mpr ⟨hx, by simp [hxc]⟩
    · rw [hd]
      have hnone : ((s.filter fun x => !(x.code = c)).find? fun x => x.code = c) = none :=
        List.find?_eq_none.mpr fun x hx => by simpa using (List.mem_filter.mp hx).2
      unfold getLink
      rw [hnone]

/-- Witness for C7: deleting `"abc123"` out of a two-row store. -/
theorem C7_delete_witness :
    ((∀ r ∈ [(⟨"abc123", "http://a.com", 1, none, 0⟩ : LinkRow),
        ⟨"b23456", "http://b.com", 2, some 3, 1⟩], r.code ≠ "abc123") →
      deleteLink [⟨"abc123", "http://a.com", 1, none, 0⟩,
          ⟨"b23456", "http://b.com", 2, some 3, 1⟩] "abc123" =
        (DeleteResult.notFound, [⟨"abc123", "http://a.com", 1, none, 0⟩,
          ⟨"b23456", "http://b.com", 2, some 3, 1⟩]) ∧
      deleteStatus (deleteLink [⟨"abc123", "http://a.com", 1, none, 0⟩,
          ⟨"b23456", "http://b.com", 2, some 3, 1⟩] "abc123").1 = 404) ∧
    ∀ r ∈ [(⟨"abc123", "http://a.com", 1, none, 0⟩ : LinkRow),
        ⟨"b23456", "http://b.com", 2, some 3, 1⟩], r.code = "abc123" →
      (deleteLink [⟨"abc123", "http://a.com", 1, none, 0⟩,
          ⟨"b23456", "http://b.com", 2, some 3, 1⟩] "abc123").1 = DeleteResult.noContent ∧
      deleteStatus (deleteLink [⟨"abc123", "http://a.com", 1, none, 0⟩,
          ⟨"b23456", "http://b.com", 2, some 3, 1⟩] "abc123").1 = 204 ∧
      (deleteLink [⟨"abc123", "http://a.com", 1, none, 0⟩,
          ⟨"b23456", "http://b.com", 2, some 3, 1⟩] "abc123").2.length + 1 =
        (([⟨"abc123", "http://a.com", 1, none, 0⟩,
          ⟨"b23456", "http://b.com", 2, some 3, 1⟩] : Store)).length ∧
      (∀ x ∈ (deleteLink [⟨"abc123", "http://a.com", 1, none, 0⟩,
          ⟨"b23456", "http://b.com", 2, some 3, 1⟩] "abc123").2,
        x ∈ [(⟨"abc123", "http://a.com", 1, none, 0⟩ : LinkRow),
          ⟨"b23456", "http://b.com", 2, some 3, 1⟩] ∧ x.code ≠ "abc123") ∧
      (∀ x ∈ [(⟨"abc123", "http://a.com", 1, none, 0⟩ : LinkRow),
          ⟨"b23456", "http://b.com", 2, some 3, 1⟩], x.code ≠ "abc123" →
        x ∈ (deleteLink [⟨"abc123", "http://a.com", 1, none, 0⟩,
          ⟨"b23456", "http://b.com", 2, some 3, 1⟩] "abc123").2) ∧
      getLink (deleteLink [⟨"abc123", "http://a.com", 1, none, 0⟩,
          ⟨"b23456", "http://b.com", 2, some 3, 1⟩] "abc123").2 "abc123" =
        GetResult.notFound :=
  C7_delete [⟨"abc123", "http://a.com", 1, none, 0⟩,
    ⟨"b23456", "http://b.com", 2, some 3, 1⟩] "abc123" (by unfold Wf; decide)

/-- C8 (amended): `isValidUrl` accepts every string the spec's
scheme-plus-authority validator accepts, rejects missing or malformed input,
but does NOT require an authority: some parseable absolute URL (a `mailto:`
URI) is accepted while carrying no authority component. -/
theorem C8_url_validator :
    (∀ s : String, specValidateUrl s = true → isValidUrl s = true) ∧
    isValidUrl "" = false ∧
    isValidUrl "not a url" = false ∧
    isValidUrl "http://" = false ∧
    (∃ s : String, isValidUrl s = true ∧ specValidateUrl s = false) := by
  refine ⟨?_, by decide, by decide, by decide,
    ⟨"mailto:someone@example.com", by decide, by decide⟩⟩
  intro s h
  unfold specValidateUrl at h
  unfold isValidUrl
  cases hp : parseURL s with
  | none => rw [hp] at h; cases h
  | some u => rfl

/-- Counterexample to C8 as stated: `new URL` accepts a `mailto:` URI, which has
a scheme but no authority, so the claim's "rejects strings lacking an authority
component" is false of `isValidUrl`. -/
theorem C8_counterexample :
    isValidUrl "mailto:payments@vendor.example" = true ∧
    specValidateUrl "mailto:payments@vendor.example" = false := by
  decide

/-- Witness for C8 at `http://example.com` (scheme and authority present). -/
theorem C8_url_validator_witness :
    specValidateUrl "http://example.com" = true ∧
    isValidUrl "http://example.com" = true :=
  ⟨by decide, C8_url_validator.1 "http://example.com" (by decide)⟩

/-- C9: over any operation sequence in which a stored row's code is never
deleted, the row with that code keeps its `target_url` and `created_at`
forever, its `total_clicks` never decreases, and when the sequence contains no
redirect of that code the row is exactly unchanged — so `total_clicks` moves
only through the redirect path. -/
theorem C9_invariants (ops : List Op) : ∀ (s : Store) (r r' : LinkRow),
    Wf s → r ∈ s → (∀ op ∈ ops, isDeleteOf r.code op = false) →
    r' ∈ run s ops → r'.code = r.code →
    r.total_clicks ≤ r'.total_clicks ∧ r'.target_url = r.target_url ∧
    r'.created_at = r.created_at ∧
    ((∀ op ∈ ops, isRedirectOf r.code op = false) → r' = r) := by
  induction ops with
  | nil =>
    intro s r r' hwf hr _ hr' hc
    have hrr : r' = r := mem_unique_of_wf hwf hr hr' hc
    subst hrr
    exact ⟨le_refl _, rfl, rfl, fun _ => rfl⟩
  | cons op ops ih =>
    intro s r r' hwf hr hnd hr' hc
    have hnd0 : isDeleteOf r.code op = false := hnd op (List.mem_cons_self _ _)
    obtain ⟨r₁, hr₁, hcode₁, hurl₁, hcr₁, hclick₁, hid₁⟩ := step_survivor s op r hr hnd0
    have hwf1 : Wf (step s op) := Wf_step s op hwf
    have hrun : run s (op :: ops) = run (step s op) ops := rfl
    rw [hrun] at hr'
    have hnd1 : ∀ o ∈ ops, isDeleteOf r₁.code o = false := by
      rw [hcode₁]
      exact fun o ho => hnd o (List.mem_cons_of_mem _ ho)
    have hc1 : r'.code = r₁.code := by rw [hc, hcode₁]
    obtain ⟨h1, h2, h3, h4⟩ := ih (step s op) r₁ r' hwf1 hr₁ hnd1 hr' hc1
    refine ⟨le_trans hclick₁ h1, h2.trans hurl₁, h3.trans hcr₁, ?_⟩
    intro hnr
    have hstep : r₁ = r := hid₁ (hnr op (List.mem_cons_self _ _))
    have hrest : r' = r₁ := by
      refine h4 ?_
      rw [hcode₁]
      exact fun o ho => hnr o (List.mem_cons_of_mem _ ho)
    rw [hrest, hstep]

/-- Witness for C9: a get, a redirect of the row's code and a delete of another
code, run over a two-row store. -/
theorem C9_invariants_witness :
    (⟨"abc123", "http://a.com", 5, none, 0⟩ : LinkRow).total_clicks ≤
      (bumpRow 7 ⟨"abc123", "http://a.com", 5, none, 0⟩).total_clicks ∧
    (bumpRow 7 ⟨"abc123", "http://a.com", 5, none, 0⟩).target_url =
      (⟨"abc123", "http://a.com", 5, none, 0⟩ : LinkRow).target_url ∧
    (bumpRow 7 ⟨"abc123", "http://a.com", 5, none, 0⟩).created_at =
      (⟨"abc123", "http://a.com", 5, none, 0⟩ : LinkRow).created_at ∧
    ((∀ op ∈ [Op.getOp "abc123", Op.redirectOp 7 "abc123", Op.deleteOp "b23456"],
        isRedirectOf (⟨"abc123", "http://a.com", 5, none, 0⟩ : LinkRow).code op = false) →
      bumpRow 7 ⟨"abc123", "http://a.com", 5, none, 0⟩ =
        ⟨"abc123", "http://a.com", 5, none, 0⟩) :=
  C9_invariants [Op.getOp "abc123", Op.redirectOp 7 "abc123", Op.deleteOp "b23456"]
    [⟨"abc123", "http://a.com", 5, none, 0⟩, ⟨"b23456", "http://b.com", 2, some 3, 1⟩]
    ⟨"abc123", "http://a.com", 5, none, 0⟩
    (bumpRow 7 ⟨"abc123", "http://a.com", 5, none, 0⟩)
    (by unfold Wf; decide) (by decide) (by decide) (by decide) (by decide)

/-- C10: `GET /api/links/:code`, `DELETE /api/links/:code` and `GET /:code`
look any code string up with no format validation: for every string — matching
the 6–8 pattern or not — the response is 404 exactly when no row carries the
code, and otherwise 200, 204 and 302 respectively; none of the three can answer
400. -/
theorem C10_lookup_no_validation (s : Store) (now : Nat) (c : String) :
    (getStatus (getLink s c) = 404 ↔ ∀ r ∈ s, r.code ≠ c) ∧
    (getStatus (getLink s c) = 200 ∨ getStatus (getLink s c) = 404) ∧
    (deleteStatus (deleteLink s c).1 = 404 ↔ ∀ r ∈ s, r.code ≠ c) ∧
    (deleteStatus (deleteLink s c).1 = 204 ∨ deleteStatus (deleteLink s c).1 = 404) ∧
    (redirectStatus (redirectHandler s now c).1 = 404 ↔ ∀ r ∈ s, r.code ≠ c) ∧
    (redirectStatus (redirectHandler s now c).1 = 302 ∨
      redirectStatus (redirectHandler s now c).1 = 404) := by
  have hget : (getStatus (getLink s c) = 404 ↔ ∀ r ∈ s, r.code ≠ c) ∧
      (getStatus (getLink s c) = 200 ∨ getStatus (getLink s c) = 404) := by
    unfold getLink
    cases hf : s.find? fun r => r.code = c with
    | none =>
      refine ⟨⟨fun _ x hx => by simpa using List.find?_eq_none.mp hf x hx, fun _ => rfl⟩,
        Or.inr rfl⟩
    | some row =>
      refine ⟨⟨fun h => by simp [getStatus] at h, fun h => ?_⟩, Or.inl rfl⟩
      have hrow : row ∈ s := List.mem_of_find?_eq_some hf
      have hpc : row.code = c := by simpa using List.find?_some hf
      exact absurd hpc (h row hrow)
  have hdel : (deleteStatus (deleteLink s c).1 = 404 ↔ ∀ r ∈ s, r.code ≠ c) ∧
      (deleteStatus (deleteLink s c).1 = 204 ∨ deleteStatus (deleteLink s c).1 = 404) := by
    unfold deleteLink
    by_cases h0 : (s.countP fun r => r.code = c) = 0
    · rw [if_pos h0]
      refine ⟨⟨fun _ x hx => ?_, fun _ => rfl⟩, Or.inr rfl⟩
      have := List.countP_eq_zero.mp h0 x hx
      simpa using this
    · rw [if_neg h0]
      refine ⟨⟨fun h => by simp [deleteStatus] at h, fun h => ?_⟩, Or.inl rfl⟩
      exact absurd (countP_code_eq_zero h) h0
  have hredir : (redirectStatus (redirectHandler s now c).1 = 404 ↔ ∀ r ∈ s, r.code ≠ c) ∧
      (redirectStatus (redirectHandler s now c).1 = 302 ∨
        redirectStatus (redirectHandler s now c).1 = 404) := by
    unfold redirectHandler
    cases hf : s.find? fun r => r.code = c with
    | none =>
      refine ⟨⟨fun _ x hx => by simpa using List.find?_eq_none.mp hf x hx, fun _ => rfl⟩,
        Or.inr rfl⟩
    | some row =>
      refine ⟨⟨fun h => by simp [redirectStatus] at h, fun h => ?_⟩, Or.inl rfl⟩
      have hrow : row ∈ s := List.mem_of_find?_eq_some hf
      have hpc : row.code = c := by simpa using List.find?_some hf
      exact absurd hpc (h row hrow)
  exact ⟨hget.1, hget.2, hdel.1, hdel.2, hredir.1, hredir.2⟩
